import Mathlib

/-!
Verification development for the `term-box` Rust crate.

The crate renders lines of text inside a rectangular border with optional
padding, optional top/bottom titles embedded in the border, and optional ANSI
styling.  Strings are modelled as lists of tokens (`Tok`): a visible character
carrying its terminal display width, or an ANSI escape atom of display width 0.
This mirrors the crate's external `ansi_width` collaborator, which measures a
string's visible width treating escape sequences as zero-width.

Each definition below is translated from the corresponding item of the source
(`src/line.rs`, `src/border.rs`, `src/padding.rs`, `src/title.rs`,
`src/core.rs`, `src/core/format.rs`, and the legacy renderer in `src/lib.rs`);
machine integers (`usize`) become `Nat`, with the caveat that `Nat`
subtraction truncates where Rust would overflow (every theorem below restricts
to the domain where no truncation occurs, or proves that it cannot).
-/

/-- A token of a terminal string: either a visible character together with its
terminal display width, or an ANSI escape atom (display width 0).  The width is
carried on the token because the crate delegates width measurement to the
external `ansi_width` function. -/
inductive Tok where
  | ch (c : Char) (w : Nat)
  | esc (id : Nat)
deriving DecidableEq, Repr

/-- Display width of one token: escape sequences are zero-width. -/
def Tok.width : Tok → Nat
  | .ch _ w => w
  | .esc _ => 0

/-- A modelled string: a list of tokens. -/
abbrev Str := List Tok

/-- Model of the external `ansi_width` collaborator: total visible width. -/
def visWidth (s : Str) : Nat := (s.map Tok.width).sum

/-- The newline character pushed between rendered lines. -/
def nlTok : Tok := .ch '\n' 0

/-- Is this token the newline character (used by `String::split('\n')`)? -/
def isNL : Tok → Bool
  | .ch c _ => c = '\n'
  | .esc _ => false

/-- `src/line.rs::CountedString`: text paired with a (pre-computed) visible
width.  The `width` field stores whatever the constructor was given; only
`new`/`owned` measure it. -/
structure CountedString where
  str : Str
  width : Nat
deriving DecidableEq, Repr

/-- `CountedString::new`: measure the width with `ansi_width`. -/
def CountedString.new (s : Str) : CountedString := ⟨s, visWidth s⟩

/-- `CountedString::EMPTY`. -/
def CountedString.EMPTY : CountedString := ⟨[], 0⟩

/-- `CountedString::counted`: trust the caller-supplied width. -/
def CountedString.counted (s : Str) (w : Nat) : CountedString := ⟨s, w⟩

/-- `CountedString::owned`: measure the width with `ansi_width`. -/
def CountedString.owned (s : Str) : CountedString := ⟨s, visWidth s⟩

/-- `cmp::max` on `CountedString` under its width-only `Ord` instance;
`cmp::max` returns the second argument when the two compare equal. -/
def CountedString.max (a b : CountedString) : CountedString :=
  if b.width < a.width then a else b

/-- Model of `nu_ansi_term::Style`: the escape atoms it emits before and after
painted text.  The crate only uses `paint` and `is_plain`. -/
structure AnsiStyle where
  pre : List Nat
  post : List Nat
deriving DecidableEq, Repr

/-- `Style::default()`: paints nothing. -/
def AnsiStyle.plain : AnsiStyle := ⟨[], []⟩

/-- `Style::is_plain`: structural equality with the default style. -/
def AnsiStyle.isPlain (s : AnsiStyle) : Bool := s = AnsiStyle.plain

/-- `Style::paint(..).to_string()`: wrap the text in the style's escapes. -/
def AnsiStyle.paint (s : AnsiStyle) (t : Str) : Str :=
  (s.pre.map Tok.esc) ++ t ++ (s.post.map Tok.esc)

/-- `src/border.rs::BorderChar`: the six logical border positions. -/
inductive BorderChar where
  | TopLeft | TopRight | Side | BotLeft | BotRight | Edge
deriving DecidableEq, Repr

/-- `src/border.rs::BorderShape`. -/
inductive BorderShape where
  | Single | Double
deriving DecidableEq, Repr

/-- `BorderShape::get_char`: lookup into `SINGLE_SHAPES` / `DOUBLE_SHAPES`.
Every glyph is a single visible character of display width 1. -/
def BorderShape.getChar : BorderShape → BorderChar → Tok
  | .Single, .TopLeft => .ch '┌' 1
  | .Single, .TopRight => .ch '┐' 1
  | .Single, .Side => .ch '│' 1
  | .Single, .BotLeft => .ch '└' 1
  | .Single, .BotRight => .ch '┘' 1
  | .Single, .Edge => .ch '─' 1
  | .Double, .TopLeft => .ch '╔' 1
  | .Double, .TopRight => .ch '╗' 1
  | .Double, .Side => .ch '║' 1
  | .Double, .BotLeft => .ch '╚' 1
  | .Double, .BotRight => .ch '╝' 1
  | .Double, .Edge => .ch '═' 1

/-- `src/border.rs::BorderStyle`. -/
structure BorderStyle where
  shape : BorderShape
  ansi : AnsiStyle
deriving DecidableEq, Repr

/-- `BorderStyle::default()` / `BorderStyle::new_single()`. -/
def BorderStyle.new_single : BorderStyle := ⟨.Single, AnsiStyle.plain⟩

/-- `BorderStyle::new_double()`. -/
def BorderStyle.new_double : BorderStyle := ⟨.Double, AnsiStyle.plain⟩

/-- `BorderStyle::get_edge_string`: the styled vertical side glyph. -/
def BorderStyle.get_edge_string (b : BorderStyle) : Str :=
  b.ansi.paint [b.shape.getChar .Side]

/-- `TermBox::SIDES`: the two border glyphs on a line. -/
def SIDES : Nat := 2

/-- `TermBox::MIN_LINE_LEN`. -/
def MIN_LINE_LEN : Nat := 3

/-- `src/core/format.rs::DEFAULT_DIST_FROM_CORNER`. -/
def DEFAULT_DIST_FROM_CORNER : Nat := 1

/-- `src/padding.rs::Padding`.  The Rust field `chr: char` is modelled as the
character together with its display width `chrW` (width measurement lives
outside the crate, so the model carries it alongside the character). -/
structure Padding where
  chr : Char
  chrW : Nat
  count : Nat
deriving DecidableEq, Repr

/-- `Padding::spaces`. -/
def Padding.spaces (count : Nat) : Padding := ⟨' ', 1, count⟩

/-- `Padding::new`: a tab character is normalized to `count * 8` spaces. -/
def Padding.new (chr : Char) (chrW : Nat) (count : Nat) : Padding :=
  match chr with
  | '\t' => Padding.spaces (count * 8)
  | _ => ⟨chr, chrW, count⟩

/-- `Padding::none` (also `Padding::default()`: `char::default()` is `'\0'`). -/
def Padding.none : Padding := ⟨'\x00', 0, 0⟩

/-- `Padding::into_string`: the padding character repeated `count` times. -/
def Padding.into_string (p : Padding) : Str :=
  List.replicate p.count (Tok.ch p.chr p.chrW)

/-- `Padding::into_counted_string`: the repeated character with the *declared*
width `count` (each padding character is assumed one column wide). -/
def Padding.into_counted_string (p : Padding) : CountedString :=
  match p.count with
  | 0 => CountedString.EMPTY
  | n => CountedString.counted p.into_string n

/-- `src/title.rs::TitlePosition`. -/
inductive TitlePosition where
  | Centered | Left | Right
deriving DecidableEq, Repr

/-- `src/title.rs::Title`. -/
structure Title where
  text : CountedString
  pos : TitlePosition
deriving DecidableEq, Repr

/-- `Title::empty` / `Title::default()` (default position is `Left`). -/
def Title.empty : Title := ⟨CountedString.EMPTY, .Left⟩

/-- The `Title` constructor function (`src/title.rs::cons::Title`): the text's
width is measured by `CountedString::owned`. -/
def mkTitle (s : Str) (pos : TitlePosition) : Title := ⟨CountedString.owned s, pos⟩

/-- `Title::is_empty`: raw length of the text, not its visible width. -/
def Title.is_empty (t : Title) : Bool := t.text.str.isEmpty

/-- `Title::width`. -/
def Title.width (t : Title) : Nat := t.text.width

/-- `src/title.rs::special_pad_len`: the `width == 0` and
`total_len - SIDES == width` special cases shared by both pad computations. -/
def special_pad_len (width total_len : Nat) : Option Nat :=
  if width = 0 then
    some (total_len / 2)
  else
    match (total_len - SIDES) - width with
    | 0 => some 0
    | _ => Option.none

/-- `src/title.rs::opposite_side_pad_len`. -/
def opposite_side_pad_len (width total_len : Nat) : Nat :=
  total_len - width - DEFAULT_DIST_FROM_CORNER - SIDES

/-- `src/title.rs::center_pad_len`.  `total_len & 1` is `total_len % 2`. -/
def center_pad_len (width total_len parity_diff_mod : Nat) : Nat :=
  let res := total_len / 2 - width / 2 - 1
  let total_parity := total_len % 2
  if width % 2 ≠ total_parity then
    match total_parity with
    | 1 => res + parity_diff_mod
    | _ => res - parity_diff_mod
  else
    res

/-- `Title::left_pad_len`. -/
def Title.left_pad_len (t : Title) (total_len : Nat) : Nat :=
  match special_pad_len t.width total_len with
  | some pad_len => pad_len
  | Option.none =>
    match t.pos with
    | .Left => DEFAULT_DIST_FROM_CORNER
    | .Right => opposite_side_pad_len t.width total_len
    | .Centered => center_pad_len t.width total_len 0

/-- `Title::right_pad_len`. -/
def Title.right_pad_len (t : Title) (total_len : Nat) : Nat :=
  match special_pad_len t.width total_len with
  | some pad_len => pad_len
  | Option.none =>
    match t.pos with
    | .Right => DEFAULT_DIST_FROM_CORNER
    | .Left => opposite_side_pad_len t.width total_len
    | .Centered => center_pad_len t.width total_len 1

/-- `src/title.rs::Titles`. -/
structure Titles where
  top : Title
  bottom : Title
deriving DecidableEq, Repr

/-- `Titles::none` / `Titles::default()`. -/
def Titles.none : Titles := ⟨Title.empty, Title.empty⟩

/-- `src/core/format.rs::line_len`: width of a content line once the border
glyphs and the padding on both sides are added. -/
def line_len (line : CountedString) (padding : Nat) : Nat :=
  line.width + SIDES + SIDES * padding

/-- `src/core/format.rs::make_line`: emit one content line.  The fill of
`min_len - line_len` literal spaces brings the line up to the full width. -/
def make_line (buf : Str) (edge_string : Str) (pad_string : CountedString)
    (text : CountedString) (min_len : Nat) : Str :=
  let buf := buf ++ edge_string ++ pad_string.str ++ text.str
  let diff := min_len - line_len text pad_string.width
  let buf := if diff > 0 then buf ++ List.replicate diff (Tok.ch ' ' 1) else buf
  buf ++ pad_string.str ++ edge_string ++ [nlTok]

/-- `src/core/format.rs::HorizLineArgs`. -/
structure HorizLineArgs where
  len : Nat
  style : BorderStyle
  title : Title
  left : BorderChar
  right : BorderChar

/-- `src/core/format.rs::ins_title`: insert the title between its computed
edge-glyph pads; the pad-and-corner segment after the title is re-styled
independently because the title's own text may reset the style. -/
def ins_title (buf : Str) (edge_char right_char : Tok) (args : HorizLineArgs) : Str :=
  let title := args.title
  let left_pad_len := title.left_pad_len args.len
  let buf := buf ++ List.replicate left_pad_len edge_char ++ title.text.str
  let right_pad_len := title.right_pad_len args.len
  let right_pad := List.replicate right_pad_len edge_char ++ [right_char]
  if args.style.ansi.isPlain then buf ++ right_pad
  else buf ++ args.style.ansi.paint right_pad

/-- `src/core/format.rs::make_top_or_bottom_line` (the `alloc_title_buf` call
only pre-sizes the Rust buffer and has no observable effect). -/
def make_top_or_bottom_line (buf : Str) (args : HorizLineArgs) : Str :=
  let shape := args.style.shape
  let edge_char := shape.getChar .Edge
  let tmp_buf : Str := [shape.getChar args.left]
  let right_char := shape.getChar args.right
  let tmp_buf :=
    if ¬args.title.is_empty then ins_title tmp_buf edge_char right_char args
    else tmp_buf ++ (List.replicate (args.len - SIDES) edge_char ++ [right_char])
  if args.style.ansi.isPlain then buf ++ tmp_buf
  else buf ++ args.style.ansi.paint tmp_buf

/-- `src/core/format.rs::make_top_line`. -/
def make_top_line (buf : Str) (border_style : BorderStyle) (top : Title) (len : Nat) : Str :=
  make_top_or_bottom_line buf
    ⟨len, border_style, top, .TopLeft, .TopRight⟩ ++ [nlTok]

/-- `src/core/format.rs::make_bottom_line`. -/
def make_bottom_line (buf : Str) (border_style : BorderStyle) (bottom : Title) (len : Nat) : Str :=
  make_top_or_bottom_line buf
    ⟨len, border_style, bottom, .BotLeft, .BotRight⟩

/-- `src/core.rs::TermBox`. -/
structure TermBox where
  border_style : BorderStyle
  padding : Padding
  titles : Titles
  lines : List Str
deriving DecidableEq, Repr

/-- `TermBox::default()`. -/
def TermBox.default : TermBox :=
  ⟨BorderStyle.new_single, Padding.none, Titles.none, []⟩

/-- The loop of `TermBox::map_to_counts_and_find_longest`: walk the counted
lines with their indices, keeping the index of the first line of maximal
width (`line > lines[max]` compares widths strictly). -/
def find_longest_go (all : List CountedString) :
    Nat → List CountedString → Option Nat → Option Nat
  | _, [], max_idx => max_idx
  | idx, line :: rest, max_idx =>
    let max_idx :=
      match max_idx with
      | some max => if (all.getD max CountedString.EMPTY).width < line.width
                    then some idx else some max
      | Option.none => some idx
    find_longest_go all (idx + 1) rest max_idx

/-- `TermBox::map_to_counts_and_find_longest`, index part (the mapped counted
lines themselves are recomputed by the callers below). -/
def find_longest (all : List CountedString) : Option Nat :=
  find_longest_go all 0 all Option.none

/-- The content lines mapped through `CountedString::new`. -/
def TermBox.counted_lines (b : TermBox) : List CountedString :=
  b.lines.map CountedString.new

/-- The `longest_line` value of `TermBox::into_string`: the max of the two
title texts, then (if any line exists) the max with the longest content
line. -/
def TermBox.longest_line (b : TermBox) : CountedString :=
  let base := CountedString.max b.titles.top.text b.titles.bottom.text
  match find_longest b.counted_lines with
  | some longest_idx =>
      CountedString.max base (b.counted_lines.getD longest_idx CountedString.EMPTY)
  | Option.none => base

/-- The `line_len` value computed inside `TermBox::into_string`. -/
def TermBox.computed_line_len (b : TermBox) : Nat :=
  Nat.max MIN_LINE_LEN (line_len b.longest_line b.padding.count)

/-- `TermBox::into_string`: the render operation. -/
def TermBox.into_string (b : TermBox) : Str :=
  let llen := b.computed_line_len
  let buf := make_top_line [] b.border_style b.titles.top llen
  let edge_string := b.border_style.get_edge_string
  let pad_string := b.padding.into_counted_string
  let buf := b.counted_lines.foldl
    (fun buf line => make_line buf edge_string pad_string line llen) buf
  make_bottom_line buf b.border_style b.titles.bottom llen

/-- `TermBox::print_to` / `TermBox::print` write the box through `writeln!`:
they emit `into_string` plus exactly one final newline. -/
def TermBox.print_string (b : TermBox) : Str := b.into_string ++ [nlTok]

/-- `str::split('\n')` on the rendered token string. -/
def splitLines : Str → List Str
  | [] => [[]]
  | t :: ts =>
    match isNL t, splitLines ts with
    | true, r => [] :: r
    | false, [] => [[t]]
    | false, s :: r => (t :: s) :: r

/-! ### The legacy renderer (`src/lib.rs`)

The crate root contains an older, title-less rendering path on its own
`TermBox` type (fields `border_style`, `padding`, `lines`).  Its `Padding` and
`CountedString` duplicate the current ones, so those model types are reused;
its `Padding::get_string` has the same body as `Padding::into_counted_string`.
-/

/-- `src/lib.rs::Padding::get_string` (identical body to
`Padding::into_counted_string`). -/
def Padding.get_string (p : Padding) : CountedString :=
  match p.count with
  | 0 => CountedString.EMPTY
  | n => CountedString.counted p.into_string n

/-- `src/lib.rs::TermBox` (no titles). -/
structure LegacyTermBox where
  border_style : BorderStyle
  padding : Padding
  lines : List Str
deriving DecidableEq, Repr

/-- `lines.iter().max()`: the last maximal element (ties keep the second). -/
def legacy_longest (lines : List CountedString) : CountedString :=
  match lines with
  | [] => CountedString.EMPTY
  | x :: xs => xs.foldl CountedString.max x

/-- `src/lib.rs::make_top_or_bottom_line`: build a full row of edge glyphs and
overwrite the first and last glyph with the corners (the byte-level
`replace_range` calls replace exactly one glyph since all glyphs of a shape
have equal byte length); the border style is applied unconditionally. -/
def legacy_make_top_or_bottom_line (buf : Str) (style : BorderStyle) (len : Nat)
    (left right : BorderChar) : Str :=
  let edge_char := style.shape.getChar .Edge
  let tmp_buf := List.replicate len edge_char
  let tmp_buf := tmp_buf.set 0 (style.shape.getChar left)
  let tmp_buf := tmp_buf.set (tmp_buf.length - 1) (style.shape.getChar right)
  buf ++ style.ansi.paint tmp_buf

/-- `src/lib.rs::make_top_line`. -/
def legacy_make_top_line (buf : Str) (style : BorderStyle) (len : Nat) : Str :=
  legacy_make_top_or_bottom_line buf style len .TopLeft .TopRight ++ [nlTok]

/-- `src/lib.rs::make_bottom_line`. -/
def legacy_make_bottom_line (buf : Str) (style : BorderStyle) (len : Nat) : Str :=
  legacy_make_top_or_bottom_line buf style len .BotLeft .BotRight

/-- `src/lib.rs::TermBox::to_string`: the legacy render operation. -/
def LegacyTermBox.to_string (b : LegacyTermBox) : Str :=
  let lines := b.lines.map CountedString.new
  let longest_line := legacy_longest lines
  let llen := Nat.max MIN_LINE_LEN (line_len longest_line b.padding.count)
  let buf := legacy_make_top_line [] b.border_style llen
  let edge_string := b.border_style.get_edge_string
  let pad_string := b.padding.get_string
  let buf := lines.foldl
    (fun buf line => make_line buf edge_string pad_string line llen) buf
  legacy_make_bottom_line buf b.border_style llen

/-! ### Spec-side definitions

These mirror the words of the specification (not the code) and are used to
state the claims; the theorems connect them to the code-derived definitions
above. -/

/-- The spec's `longest_width`: the maximum visual width over all content
lines and both titles' texts (0 for a box with no lines and no titles). -/
def longest_width (b : TermBox) : Nat :=
  Nat.max
    (Nat.max (visWidth b.titles.top.text.str) (visWidth b.titles.bottom.text.str))
    ((b.lines.map visWidth).foldr Nat.max 0)

/-- Maximum width of a list of counted strings (0 when empty). -/
def maxW : List CountedString → Nat
  | [] => 0
  | l :: ls => Nat.max l.width (maxW ls)

/-- The visible part of one content row: everything `make_line` pushes before
its newline. -/
def make_line_core (edge_string : Str) (pad_string text : CountedString)
    (min_len : Nat) : Str :=
  let s := edge_string ++ pad_string.str ++ text.str
  let diff := min_len - line_len text pad_string.width
  let s := if diff > 0 then s ++ List.replicate diff (Tok.ch ' ' 1) else s
  s ++ pad_string.str ++ edge_string

/-- Concatenation of a list of token strings. -/
def catStrs : List Str → Str
  | [] => []
  | s :: ss => s ++ catStrs ss

/-! Integer mirrors of the title-pad computations (`src/title.rs`): the same
formulas with `Int` subtraction in place of `usize` subtraction, used to state
that no intermediate value ever goes below zero. -/

/-- `special_pad_len` over `Int`. -/
def special_pad_lenZ (width total_len : Int) : Option Int :=
  if width = 0 then
    some (total_len / 2)
  else if total_len - 2 - width = 0 then some 0 else Option.none

/-- `opposite_side_pad_len` over `Int`. -/
def opposite_side_pad_lenZ (width total_len : Int) : Int :=
  total_len - width - 1 - 2

/-- `center_pad_len` over `Int`. -/
def center_pad_lenZ (width total_len parity_diff_mod : Int) : Int :=
  let res := total_len / 2 - width / 2 - 1
  if width % 2 ≠ total_len % 2 then
    if total_len % 2 = 1 then res + parity_diff_mod else res - parity_diff_mod
  else res

/-- `Title::left_pad_len` over `Int`. -/
def left_pad_lenZ (pos : TitlePosition) (width total_len : Int) : Int :=
  match special_pad_lenZ width total_len with
  | some pad_len => pad_len
  | Option.none =>
    match pos with
    | .Left => 1
    | .Right => opposite_side_pad_lenZ width total_len
    | .Centered => center_pad_lenZ width total_len 0

/-- `Title::right_pad_len` over `Int`. -/
def right_pad_lenZ (pos : TitlePosition) (width total_len : Int) : Int :=
  match special_pad_lenZ width total_len with
  | some pad_len => pad_len
  | Option.none =>
    match pos with
    | .Right => 1
    | .Left => opposite_side_pad_lenZ width total_len
    | .Centered => center_pad_lenZ width total_len 1

/-- A box whose top title consists of a single ANSI escape sequence: non-empty
raw text of visible width zero. -/
def escTitleBox : TermBox :=
  ⟨BorderStyle.new_single, Padding.none, ⟨mkTitle [Tok.esc 0] .Left, Title.empty⟩, []⟩

/-- The default box with a `Double` border. -/
def doubleBox : TermBox :=
  ⟨BorderStyle.new_double, Padding.none, Titles.none, []⟩

/-- A small concrete box used to instantiate the universally quantified
theorems: single border, one space of padding, one content line `a`. -/
def witnessBox : TermBox :=
  ⟨BorderStyle.new_single, Padding.spaces 1, Titles.none, [[Tok.ch 'a' 1]]⟩

/-- Concrete border-line arguments with a styled border and a one-character
left title, used to instantiate the border-line theorems. -/
def c5Args : HorizLineArgs :=
  ⟨7, ⟨.Single, ⟨[1], [2]⟩⟩, mkTitle [Tok.ch 't' 1] .Left, .TopLeft, .TopRight⟩

/-- The conditional styling step of the source (`format.rs`): `paint` is
skipped entirely when the style is plain. -/
def applyStyle (s : AnsiStyle) (t : Str) : Str :=
  if s.isPlain then t else s.paint t

/-- No token of the string is the newline character. -/
def noNL (s : Str) : Prop := ∀ t ∈ s, isNL t = false

/-- Honesty of a title: the stored width is the measured visual width (true of
every title the crate's public constructors can build), its text is
newline-free, and a non-empty title has at least one visible column.  The last
conjunct rules out titles made solely of ANSI control sequences. -/
def TitleOK (tl : Title) : Prop :=
  tl.text.width = visWidth tl.text.str ∧ noNL tl.text.str ∧
    (tl.text.str = [] ∨ 1 ≤ tl.text.width)

/-- Well-formedness of a box: newline-free single-column inputs, honest
titles.  Every condition is a documented caller contract of the crate. -/
def WF (b : TermBox) : Prop :=
  (∀ l ∈ b.lines, noNL l) ∧ TitleOK b.titles.top ∧ TitleOK b.titles.bottom ∧
    (b.padding.count = 0 ∨ (b.padding.chrW = 1 ∧ b.padding.chr ≠ '\n'))

instance (s : Str) : Decidable (noNL s) := by unfold noNL; infer_instance

instance (tl : Title) : Decidable (TitleOK tl) := by unfold TitleOK; infer_instance

instance (b : TermBox) : Decidable (WF b) := by unfold WF; infer_instance

/-! ### Basic width and token lemmas -/

theorem visWidth_nil : visWidth [] = 0 := rfl

theorem visWidth_cons (t : Tok) (ts : Str) :
    visWidth (t :: ts) = t.width + visWidth ts := by
  simp [visWidth]

theorem visWidth_append (a b : Str) :
    visWidth (a ++ b) = visWidth a + visWidth b := by
  simp [visWidth]

theorem visWidth_replicate (n : Nat) (t : Tok) :
    visWidth (List.replicate n t) = n * t.width := by
  induction n with
  | zero => simp [visWidth]
  | succ k ih => simp [List.replicate_succ, visWidth_cons, ih, Nat.succ_mul]; omega

theorem visWidth_escs (l : List Nat) : visWidth (l.map Tok.esc) = 0 := by
  induction l with
  | nil => rfl
  | cons x xs ih => simp [visWidth_cons, ih, Tok.width]

theorem visWidth_paint (s : AnsiStyle) (t : Str) :
    visWidth (s.paint t) = visWidth t := by
  simp [AnsiStyle.paint, visWidth_append, visWidth_escs]

theorem paint_plain (t : Str) : AnsiStyle.plain.paint t = t := by
  simp [AnsiStyle.paint, AnsiStyle.plain]

theorem isPlain_iff (s : AnsiStyle) : s.isPlain = true ↔ s = AnsiStyle.plain := by
  simp [AnsiStyle.isPlain]

theorem getChar_not_nl (s : BorderShape) (c : BorderChar) :
    isNL (s.getChar c) = false := by
  cases s <;> cases c <;> rfl

theorem CountedString.max_width (a b : CountedString) :
    (CountedString.max a b).width = Nat.max a.width b.width := by
  unfold CountedString.max
  rcases Nat.lt_or_ge b.width a.width with h | h
  · rw [if_pos h]; exact (Nat.max_eq_left (Nat.le_of_lt h)).symm
  · rw [if_neg (Nat.not_lt.mpr h)]; exact (Nat.max_eq_right h).symm

theorem noNL_append (a b : Str) : noNL (a ++ b) ↔ noNL a ∧ noNL b := by
  unfold noNL
  constructor
  · intro h
    exact ⟨fun t ht => h t (List.mem_append_left _ ht),
           fun t ht => h t (List.mem_append_right _ ht)⟩
  · rintro ⟨h1, h2⟩ t ht
    rcases List.mem_append.mp ht with h | h
    · exact h1 t h
    · exact h2 t h

theorem noNL_nil : noNL [] := by
  intro t ht
  simp at ht

theorem noNL_cons (t : Tok) (ts : Str) :
    noNL (t :: ts) ↔ isNL t = false ∧ noNL ts := by
  unfold noNL
  constructor
  · intro h
    exact ⟨h t (List.mem_cons_self _ _), fun x hx => h x (List.mem_cons_of_mem _ hx)⟩
  · rintro ⟨h1, h2⟩ x hx
    rcases List.mem_cons.mp hx with rfl | hx
    · exact h1
    · exact h2 x hx

theorem noNL_replicate (n : Nat) (t : Tok) (h : isNL t = false) :
    noNL (List.replicate n t) := by
  intro x hx
  rw [List.eq_of_mem_replicate hx]
  exact h

theorem noNL_paint (s : AnsiStyle) (t : Str) (h : noNL t) : noNL (s.paint t) := by
  unfold AnsiStyle.paint
  rw [noNL_append, noNL_append]
  refine ⟨⟨?_, h⟩, ?_⟩ <;>
  · intro x hx
    rcases List.mem_map.mp hx with ⟨i, _, rfl⟩
    rfl

theorem noNL_single (t : Tok) (h : isNL t = false) : noNL [t] := by
  intro x hx
  simp at hx
  subst hx
  exact h

/-! ### Title pad arithmetic -/

theorem special_pad_len_zero (t : Nat) : special_pad_len 0 t = some (t / 2) := by
  simp [special_pad_len]

theorem special_pad_len_full (w t : Nat) (h1 : 1 ≤ w) (h2 : w + 2 = t) :
    special_pad_len w t = some 0 := by
  unfold special_pad_len
  rw [if_neg (by omega)]
  have hz : t - SIDES - w = 0 := by simp [SIDES]; omega
  rw [hz]

theorem special_pad_len_mid (w t : Nat) (h1 : 1 ≤ w) (h2 : w + 2 < t) :
    special_pad_len w t = Option.none := by
  unfold special_pad_len
  rw [if_neg (by omega)]
  obtain ⟨k, hk⟩ : ∃ k, t - SIDES - w = k + 1 :=
    ⟨t - SIDES - w - 1, by simp [SIDES]; omega⟩
  rw [hk]
  rfl

theorem center_pad_len_eq (w t m : Nat) :
    center_pad_len w t m =
      if w % 2 = t % 2 then t / 2 - w / 2 - 1
      else if t % 2 = 1 then t / 2 - w / 2 - 1 + m
      else t / 2 - w / 2 - 1 - m := by
  simp only [center_pad_len]
  rcases Nat.mod_two_eq_zero_or_one t with h | h <;>
    rcases Nat.mod_two_eq_zero_or_one w with hw | hw <;>
    rw [h, hw] <;> simp

theorem left_pad_len_mid (tl : Title) (t : Nat) (h1 : 1 ≤ tl.width)
    (h2 : tl.width + 2 < t) :
    tl.left_pad_len t =
      match tl.pos with
      | .Left => DEFAULT_DIST_FROM_CORNER
      | .Right => opposite_side_pad_len tl.width t
      | .Centered => center_pad_len tl.width t 0 := by
  unfold Title.left_pad_len
  rw [special_pad_len_mid tl.width t h1 h2]

theorem right_pad_len_mid (tl : Title) (t : Nat) (h1 : 1 ≤ tl.width)
    (h2 : tl.width + 2 < t) :
    tl.right_pad_len t =
      match tl.pos with
      | .Right => DEFAULT_DIST_FROM_CORNER
      | .Left => opposite_side_pad_len tl.width t
      | .Centered => center_pad_len tl.width t 1 := by
  unfold Title.right_pad_len
  rw [special_pad_len_mid tl.width t h1 h2]

theorem pad_len_full (tl : Title) (t : Nat) (h1 : 1 ≤ tl.width)
    (h2 : tl.width + 2 = t) :
    tl.left_pad_len t = 0 ∧ tl.right_pad_len t = 0 := by
  unfold Title.left_pad_len Title.right_pad_len
  rw [special_pad_len_full tl.width t h1 h2]
  exact ⟨rfl, rfl⟩

/-- The padding identity at the heart of the layout invariant: for a title of
positive width that fits the interior, the two edge-glyph pads plus the title
text plus the two corners exactly fill the line. -/
theorem pad_sum (tl : Title) (t : Nat) (h1 : 1 ≤ tl.width)
    (h2 : tl.width + 2 ≤ t) :
    tl.left_pad_len t + tl.width + tl.right_pad_len t + 2 = t := by
  rcases Nat.eq_or_lt_of_le h2 with he | hlt
  · obtain ⟨hl, hr⟩ := pad_len_full tl t h1 he
    rw [hl, hr]
    omega
  · rw [left_pad_len_mid tl t h1 hlt, right_pad_len_mid tl t h1 hlt]
    cases tl.pos <;>
      simp only [opposite_side_pad_len, DEFAULT_DIST_FROM_CORNER, SIDES,
        center_pad_len_eq]
    · split_ifs <;> omega
    · omega
    · omega

theorem pad_len_zero_width (tl : Title) (t : Nat) (h : tl.width = 0) :
    tl.left_pad_len t = t / 2 ∧ tl.right_pad_len t = t / 2 := by
  unfold Title.left_pad_len Title.right_pad_len
  rw [h, special_pad_len_zero]
  exact ⟨rfl, rfl⟩

/-! ### The longest-line computation -/

theorem maxW_ge (ls : List CountedString) : ∀ l ∈ ls, l.width ≤ maxW ls := by
  induction ls with
  | nil => simp
  | cons x xs ih =>
    intro l hl
    rcases List.mem_cons.mp hl with rfl | hl
    · exact Nat.le_max_left _ _
    · exact le_trans (ih l hl) (Nat.le_max_right _ _)

theorem max_absorb (a b c : Nat) (h : b ≤ a) :
    Nat.max a (Nat.max b c) = Nat.max a c := by
  rcases Nat.le_total b c with h1 | h1
  · exact congrArg (Nat.max a) (Nat.max_eq_right h1)
  · calc Nat.max a (Nat.max b c)
        = Nat.max a b := congrArg (Nat.max a) (Nat.max_eq_left h1)
      _ = a := Nat.max_eq_left h
      _ = Nat.max a c := (Nat.max_eq_left (le_trans h1 h)).symm

theorem drop_cons_parts {α : Type} (d : α) :
    ∀ (l : List α) (idx : Nat) (x : α) (rest : List α),
      l.drop idx = x :: rest → l.getD idx d = x ∧ l.drop (idx + 1) = rest := by
  intro l
  induction l with
  | nil =>
    intro idx x rest h
    simp at h
  | cons y ys ih =>
    intro idx x rest h
    cases idx with
    | zero =>
      simp only [List.drop] at h
      obtain ⟨rfl, rfl⟩ := List.cons.inj h
      exact ⟨rfl, rfl⟩
    | succ k =>
      have h' : ys.drop k = x :: rest := h
      obtain ⟨hg, hd⟩ := ih k x rest h'
      exact ⟨hg, hd⟩

theorem find_longest_go_some (all : List CountedString) :
    ∀ (rest : List CountedString) (idx m : Nat), all.drop idx = rest →
      ∃ j, find_longest_go all idx rest (some m) = some j ∧
        (all.getD j CountedString.EMPTY).width
          = Nat.max ((all.getD m CountedString.EMPTY).width) (maxW rest) := by
  intro rest
  induction rest with
  | nil =>
    intro idx m _
    exact ⟨m, rfl, (Nat.max_eq_left (Nat.zero_le _)).symm⟩
  | cons line rest ih =>
    intro idx m h
    obtain ⟨hget, hdrop⟩ := drop_cons_parts CountedString.EMPTY all idx line rest h
    simp only [find_longest_go, maxW]
    by_cases hc : (all.getD m CountedString.EMPTY).width < line.width
    · rw [if_pos hc]
      obtain ⟨j, hj, hw⟩ := ih (idx + 1) idx hdrop
      refine ⟨j, hj, ?_⟩
      rw [hw, hget]
      exact (Nat.max_eq_right
        (le_trans (Nat.le_of_lt hc) (Nat.le_max_left _ _))).symm
    · rw [if_neg hc]
      obtain ⟨j, hj, hw⟩ := ih (idx + 1) m hdrop
      refine ⟨j, hj, ?_⟩
      rw [hw]
      have hle : line.width ≤ (all.getD m CountedString.EMPTY).width :=
        Nat.le_of_not_lt hc
      exact (max_absorb _ _ _ hle).symm

theorem find_longest_spec (ls : List CountedString) :
    (ls = [] ∧ find_longest ls = Option.none) ∨
    (∃ j, find_longest ls = some j ∧
      (ls.getD j CountedString.EMPTY).width = maxW ls) := by
  cases ls with
  | nil => exact Or.inl ⟨rfl, rfl⟩
  | cons x xs =>
    right
    unfold find_longest
    simp only [find_longest_go]
    obtain ⟨j, hj, hw⟩ := find_longest_go_some (x :: xs) xs 1 0 rfl
    refine ⟨j, hj, ?_⟩
    rw [hw]
    simp [maxW]

theorem longest_line_width (b : TermBox) :
    b.longest_line.width
      = Nat.max (Nat.max b.titles.top.text.width b.titles.bottom.text.width)
          (maxW b.counted_lines) := by
  unfold TermBox.longest_line
  rcases find_longest_spec b.counted_lines with ⟨hnil, hq⟩ | ⟨j, hj, hw⟩
  · rw [hq, CountedString.max_width, hnil]
    simp [maxW]
  · rw [hj, CountedString.max_width, CountedString.max_width, hw]

theorem counted_lines_honest (b : TermBox) :
    ∀ l ∈ b.counted_lines, visWidth l.str = l.width := by
  intro l hl
  rcases List.mem_map.mp hl with ⟨raw, _, rfl⟩
  rfl

theorem counted_lines_le (b : TermBox) :
    ∀ l ∈ b.counted_lines, l.width ≤ b.longest_line.width := by
  intro l hl
  rw [longest_line_width]
  exact le_trans (maxW_ge _ l hl) (Nat.le_max_right _ _)

theorem titles_le (b : TermBox) :
    b.titles.top.text.width ≤ b.longest_line.width ∧
    b.titles.bottom.text.width ≤ b.longest_line.width := by
  rw [longest_line_width]
  constructor
  · exact le_trans (Nat.le_max_left _ _) (Nat.le_max_left _ _)
  · exact le_trans (Nat.le_max_right _ _) (Nat.le_max_left _ _)

theorem computed_line_len_ge_min (b : TermBox) :
    MIN_LINE_LEN ≤ b.computed_line_len :=
  Nat.le_max_left _ _

theorem computed_line_len_ge_lines (b : TermBox) :
    ∀ l ∈ b.counted_lines, line_len l b.padding.count ≤ b.computed_line_len := by
  intro l hl
  refine le_trans ?_ (Nat.le_max_right MIN_LINE_LEN _)
  unfold line_len
  have := counted_lines_le b l hl
  omega

theorem computed_line_len_ge_titles (b : TermBox) :
    b.titles.top.text.width + SIDES ≤ b.computed_line_len ∧
    b.titles.bottom.text.width + SIDES ≤ b.computed_line_len := by
  have h := titles_le b
  have h2 : line_len b.longest_line b.padding.count ≤ b.computed_line_len :=
    Nat.le_max_right _ _
  unfold line_len at h2
  constructor <;> omega

/-! ### Structure of the emitted output -/

theorem getChar_width (s : BorderShape) (c : BorderChar) :
    (s.getChar c).width = 1 := by
  cases s <;> cases c <;> rfl

theorem edge_string_width (bs : BorderStyle) :
    visWidth bs.get_edge_string = 1 := by
  unfold BorderStyle.get_edge_string
  rw [visWidth_paint]
  simp [visWidth_cons, visWidth_nil, getChar_width]

theorem edge_string_noNL (bs : BorderStyle) : noNL bs.get_edge_string := by
  unfold BorderStyle.get_edge_string
  exact noNL_paint _ _ (noNL_single _ (getChar_not_nl _ _))

theorem pad_counted_width (p : Padding) : p.into_counted_string.width = p.count := by
  unfold Padding.into_counted_string
  cases hc : p.count <;> simp [hc, CountedString.EMPTY, CountedString.counted]

theorem pad_counted_visWidth (p : Padding) (h : p.count = 0 ∨ p.chrW = 1) :
    visWidth p.into_counted_string.str = p.count := by
  unfold Padding.into_counted_string
  cases hc : p.count with
  | zero => simp [CountedString.EMPTY, visWidth]
  | succ n =>
    rcases h with h | h
    · omega
    · simp [CountedString.counted, Padding.into_string, visWidth_replicate,
        Tok.width, h, hc]

theorem pad_counted_noNL (p : Padding) (h : p.count = 0 ∨ p.chr ≠ '\n') :
    noNL p.into_counted_string.str := by
  unfold Padding.into_counted_string
  cases hc : p.count with
  | zero => intro t ht; simp [CountedString.EMPTY] at ht
  | succ n =>
    rcases h with h | h
    · omega
    · simp only [CountedString.counted, Padding.into_string]
      refine noNL_replicate _ _ ?_
      simp [isNL, h]

theorem make_line_eq (buf e : Str) (p l : CountedString) (n : Nat) :
    make_line buf e p l n = buf ++ (make_line_core e p l n ++ [nlTok]) := by
  simp only [make_line, make_line_core]
  split <;> simp

theorem make_line_core_width (e : Str) (p l : CountedString) (n : Nat)
    (he : visWidth e = 1) (hp : visWidth p.str = p.width)
    (hl : visWidth l.str = l.width) (hle : line_len l p.width ≤ n) :
    visWidth (make_line_core e p l n) = n := by
  unfold line_len SIDES at hle
  simp only [make_line_core]
  split <;>
    simp only [visWidth_append, visWidth_replicate, he, hp, hl, Tok.width] <;>
    unfold line_len SIDES at * <;> omega

theorem make_line_core_noNL (e : Str) (p l : CountedString) (n : Nat)
    (hen : noNL e) (hpn : noNL p.str) (hln : noNL l.str) :
    noNL (make_line_core e p l n) := by
  simp only [make_line_core]
  have hsp : noNL (List.replicate (n - line_len l p.width) (Tok.ch ' ' 1)) :=
    noNL_replicate _ _ (by simp [isNL])
  split <;> simp_all [noNL_append]

theorem make_top_or_bottom_line_eq (buf : Str) (args : HorizLineArgs) :
    make_top_or_bottom_line buf args = buf ++ make_top_or_bottom_line [] args := by
  simp only [make_top_or_bottom_line]
  split <;> simp

theorem noNL_paint_iff (s : AnsiStyle) (t : Str) : noNL (s.paint t) ↔ noNL t := by
  constructor
  · intro h
    exact ((noNL_append _ _).mp ((noNL_append _ _).mp h).1).2
  · exact noNL_paint s t

theorem title_nonempty_width (tl : Title) (hne : ¬tl.is_empty = true)
    (hpos : tl.text.str = [] ∨ 1 ≤ tl.text.width) : 1 ≤ tl.width := by
  rcases hpos with h | h
  · exfalso
    apply hne
    simp [Title.is_empty, h]
  · exact h

theorem hline_width (args : HorizLineArgs)
    (hhonest : args.title.text.width = visWidth args.title.text.str)
    (hpos : args.title.text.str = [] ∨ 1 ≤ args.title.text.width)
    (hfit : args.title.text.width + 2 ≤ args.len)
    (hlen : 2 ≤ args.len) :
    visWidth (make_top_or_bottom_line [] args) = args.len := by
  simp only [make_top_or_bottom_line]
  by_cases hemp : args.title.is_empty = true
  · rw [if_neg (not_not_intro hemp)]
    split <;>
      simp only [visWidth_paint, List.nil_append, visWidth_append,
        visWidth_replicate, visWidth_cons, visWidth_nil, getChar_width,
        SIDES] <;>
      omega
  · rw [if_pos hemp]
    have hw1 : 1 ≤ args.title.width := title_nonempty_width _ hemp hpos
    have hww : args.title.width = args.title.text.width := rfl
    have hsum := pad_sum args.title args.len hw1 (by omega)
    simp only [ins_title]
    split <;>
      simp only [visWidth_paint, List.nil_append, visWidth_append,
        visWidth_replicate, visWidth_cons, visWidth_nil, getChar_width,
        ← hhonest] <;>
      omega

theorem hline_noNL (args : HorizLineArgs) (ht : noNL args.title.text.str) :
    noNL (make_top_or_bottom_line [] args) := by
  have hc : ∀ c, noNL [args.style.shape.getChar c] :=
    fun c => noNL_single _ (getChar_not_nl _ _)
  have hr : ∀ k, noNL (List.replicate k (args.style.shape.getChar .Edge)) :=
    fun k => noNL_replicate _ _ (getChar_not_nl _ _)
  simp only [make_top_or_bottom_line, ins_title]
  split_ifs <;>
    simp_all [noNL_append, noNL_cons, noNL_paint_iff, getChar_not_nl,
      noNL_nil, List.nil_append]

theorem make_top_line_eq (buf : Str) (st : BorderStyle) (tl : Title) (len : Nat) :
    make_top_line buf st tl len
      = buf ++ (make_top_or_bottom_line [] ⟨len, st, tl, .TopLeft, .TopRight⟩
          ++ [nlTok]) := by
  unfold make_top_line
  rw [make_top_or_bottom_line_eq]
  simp

theorem make_bottom_line_eq (buf : Str) (st : BorderStyle) (tl : Title) (len : Nat) :
    make_bottom_line buf st tl len
      = buf ++ make_top_or_bottom_line [] ⟨len, st, tl, .BotLeft, .BotRight⟩ := by
  unfold make_bottom_line
  rw [make_top_or_bottom_line_eq]

theorem foldl_make_line (e : Str) (p : CountedString) (n : Nat) :
    ∀ (ls : List CountedString) (buf : Str),
      ls.foldl (fun b l => make_line b e p l n) buf
        = buf ++ catStrs (ls.map (fun l => make_line_core e p l n ++ [nlTok])) := by
  intro ls
  induction ls with
  | nil => intro buf; simp [catStrs]
  | cons x xs ih =>
    intro buf
    simp only [List.foldl_cons, List.map_cons, catStrs]
    rw [ih, make_line_eq]
    simp

/-! ### Splitting the output on newlines -/

theorem splitLines_noNL (s : Str) (h : noNL s) : splitLines s = [s] := by
  induction s with
  | nil => rfl
  | cons t ts ih =>
    obtain ⟨ht, hts⟩ := (noNL_cons t ts).mp h
    simp [splitLines, ht, ih hts]

theorem splitLines_append_nl :
    ∀ (x ys : Str), noNL x →
      splitLines (x ++ nlTok :: ys) = x :: splitLines ys := by
  intro x
  induction x with
  | nil =>
    intro ys _
    simp [splitLines, isNL, nlTok]
  | cons t ts ih =>
    intro ys h
    obtain ⟨ht, hts⟩ := (noNL_cons t ts).mp h
    have hstep : splitLines ((t :: ts) ++ nlTok :: ys)
        = match isNL t, splitLines (ts ++ nlTok :: ys) with
          | true, r => [] :: r
          | false, [] => [[t]]
          | false, s :: r => (t :: s) :: r := rfl
    rw [hstep, ih ys hts, ht]

theorem splitLines_cat {α : Type} (f : α → Str) :
    ∀ (ls : List α) (B : Str), (∀ l ∈ ls, noNL (f l)) → noNL B →
      splitLines (catStrs (ls.map (fun l => f l ++ [nlTok])) ++ B)
        = ls.map f ++ [B] := by
  intro ls
  induction ls with
  | nil =>
    intro B _ hB
    simp [catStrs, splitLines_noNL B hB]
  | cons c cs ih =>
    intro B hc hB
    simp only [List.map_cons, catStrs]
    have hassoc : ((f c ++ [nlTok])
        ++ catStrs (cs.map (fun l => f l ++ [nlTok]))) ++ B
        = f c ++ nlTok :: (catStrs (cs.map (fun l => f l ++ [nlTok])) ++ B) := by
      simp
    rw [hassoc, splitLines_append_nl (f c) _ (hc c (List.mem_cons_self _ _)),
      ih B (fun d hd => hc d (List.mem_cons_of_mem _ hd)) hB]
    rfl

/-! ### The rendered output, decomposed -/

theorem into_string_decomp (b : TermBox) :
    b.into_string
      = (make_top_or_bottom_line []
            ⟨b.computed_line_len, b.border_style, b.titles.top, .TopLeft, .TopRight⟩
          ++ [nlTok])
        ++ (catStrs (b.counted_lines.map (fun l =>
              make_line_core b.border_style.get_edge_string
                b.padding.into_counted_string l b.computed_line_len ++ [nlTok]))
          ++ make_top_or_bottom_line []
              ⟨b.computed_line_len, b.border_style, b.titles.bottom, .BotLeft, .BotRight⟩) := by
  unfold TermBox.into_string
  rw [make_bottom_line_eq, foldl_make_line, make_top_line_eq]
  simp

theorem WF.top_honest {b : TermBox} (h : WF b) :
    b.titles.top.text.width = visWidth b.titles.top.text.str := h.2.1.1

theorem WF.bottom_honest {b : TermBox} (h : WF b) :
    b.titles.bottom.text.width = visWidth b.titles.bottom.text.str := h.2.2.1.1

theorem WF.pad_or (b : TermBox) (h : WF b) :
    b.padding.count = 0 ∨ (b.padding.chrW = 1 ∧ b.padding.chr ≠ '\n') := h.2.2.2

/-- The central layout computation: for a well-formed box, splitting the
rendered output on newlines yields `lines.length + 2` rows, every one of
visible width `computed_line_len`. -/
theorem into_string_widths (b : TermBox) (h : WF b) :
    (splitLines b.into_string).map visWidth
      = List.replicate (b.lines.length + 2) b.computed_line_len := by
  obtain ⟨hlines, htop, hbot, hpad⟩ := h
  have hT := hline_width
    ⟨b.computed_line_len, b.border_style, b.titles.top, .TopLeft, .TopRight⟩
    htop.1 htop.2.2 (by
      show b.titles.top.text.width + 2 ≤ b.computed_line_len
      have := (computed_line_len_ge_titles b).1
      simp only [SIDES] at this
      omega)
    (by
      show 2 ≤ b.computed_line_len
      have := computed_line_len_ge_min b
      simp only [MIN_LINE_LEN] at this
      omega)
  have hB := hline_width
    ⟨b.computed_line_len, b.border_style, b.titles.bottom, .BotLeft, .BotRight⟩
    hbot.1 hbot.2.2 (by
      show b.titles.bottom.text.width + 2 ≤ b.computed_line_len
      have := (computed_line_len_ge_titles b).2
      simp only [SIDES] at this
      omega)
    (by
      show 2 ≤ b.computed_line_len
      have := computed_line_len_ge_min b
      simp only [MIN_LINE_LEN] at this
      omega)
  have hTn := hline_noNL
    ⟨b.computed_line_len, b.border_style, b.titles.top, .TopLeft, .TopRight⟩ htop.2.1
  have hBn := hline_noNL
    ⟨b.computed_line_len, b.border_style, b.titles.bottom, .BotLeft, .BotRight⟩
    hbot.2.1
  have hpadW : visWidth b.padding.into_counted_string.str
      = b.padding.into_counted_string.width := by
    rw [pad_counted_width]
    exact pad_counted_visWidth _ (by tauto)
  have hpadN : noNL b.padding.into_counted_string.str :=
    pad_counted_noNL _ (by tauto)
  have hcores : ∀ l ∈ b.counted_lines,
      visWidth (make_line_core b.border_style.get_edge_string
        b.padding.into_counted_string l b.computed_line_len) = b.computed_line_len := by
    intro l hl
    refine make_line_core_width _ _ _ _ (edge_string_width _) hpadW
      (counted_lines_honest b l hl) ?_
    have := computed_line_len_ge_lines b l hl
    rw [pad_counted_width]
    exact this
  have hcoresN : ∀ l ∈ b.counted_lines,
      noNL (make_line_core b.border_style.get_edge_string
        b.padding.into_counted_string l b.computed_line_len) := by
    intro l hl
    refine make_line_core_noNL _ _ _ _ (edge_string_noNL _) hpadN ?_
    rcases List.mem_map.mp hl with ⟨raw, hraw, rfl⟩
    exact hlines raw hraw
  rw [into_string_decomp b]
  have e1 : (make_top_or_bottom_line []
        ⟨b.computed_line_len, b.border_style, b.titles.top, .TopLeft, .TopRight⟩
      ++ [nlTok]) ++ (catStrs (b.counted_lines.map (fun l =>
          make_line_core b.border_style.get_edge_string
            b.padding.into_counted_string l b.computed_line_len ++ [nlTok]))
        ++ make_top_or_bottom_line []
          ⟨b.computed_line_len, b.border_style, b.titles.bottom, .BotLeft, .BotRight⟩)
      = make_top_or_bottom_line []
          ⟨b.computed_line_len, b.border_style, b.titles.top, .TopLeft, .TopRight⟩
        ++ nlTok :: (catStrs (b.counted_lines.map (fun l =>
            make_line_core b.border_style.get_edge_string
              b.padding.into_counted_string l b.computed_line_len ++ [nlTok]))
          ++ make_top_or_bottom_line []
            ⟨b.computed_line_len, b.border_style, b.titles.bottom, .BotLeft, .BotRight⟩) := by
    simp
  rw [e1, splitLines_append_nl _ _ hTn,
    splitLines_cat (fun l => make_line_core b.border_style.get_edge_string
        b.padding.into_counted_string l b.computed_line_len)
      b.counted_lines _ hcoresN hBn]
  rw [List.eq_replicate_iff]
  constructor
  · simp [TermBox.counted_lines]
  · intro w hw
    simp only [List.map_cons, List.map_append, List.map_map,
      List.mem_cons, List.mem_append, List.mem_map] at hw
    rcases hw with rfl | ⟨l, hl, rfl⟩ | rfl | ⟨a, ha, rfl⟩
    · exact hT
    · exact hcores l hl
    · exact hB
    · exact absurd ha (List.not_mem_nil a)

theorem maxW_counted (ls : List Str) :
    maxW (ls.map CountedString.new) = (ls.map visWidth).foldr Nat.max 0 := by
  induction ls with
  | nil => rfl
  | cons x xs ih => simp [maxW, CountedString.new, ih]

/-- The computed line length agrees with the spec-side formula built from
`longest_width` (for honest titles). -/
theorem computed_line_len_eq (b : TermBox) (h : WF b) :
    b.computed_line_len
      = Nat.max MIN_LINE_LEN (longest_width b + SIDES + SIDES * b.padding.count) := by
  unfold TermBox.computed_line_len line_len
  congr 1
  rw [longest_line_width]
  unfold longest_width
  rw [h.top_honest, h.bottom_honest, ← maxW_counted]
  rfl

/-! ### Equivalence of the legacy renderer with the current one -/

theorem get_string_eq_into_counted (p : Padding) :
    p.get_string = p.into_counted_string := rfl

theorem legacy_longest_width (ls : List CountedString) :
    (legacy_longest ls).width = maxW ls := by
  unfold legacy_longest
  cases ls with
  | nil => rfl
  | cons x xs =>
    show (xs.foldl CountedString.max x).width = Nat.max x.width (maxW xs)
    induction xs generalizing x with
    | nil => exact (Nat.max_eq_left (Nat.zero_le _)).symm
    | cons y ys ih =>
      simp only [List.foldl_cons, maxW]
      rw [ih (CountedString.max x y), CountedString.max_width]
      exact Nat.max_assoc x.width y.width (maxW ys)

theorem longest_line_no_titles (bs : BorderStyle) (p : Padding) (ls : List Str) :
    (TermBox.mk bs p Titles.none ls).longest_line.width
      = maxW (ls.map CountedString.new) := by
  rw [longest_line_width]
  show Nat.max (Nat.max 0 0) (maxW (ls.map CountedString.new)) = _
  rw [show Nat.max 0 0 = 0 from rfl]
  exact Nat.max_eq_right (Nat.zero_le _)

theorem replicate_set_last {α : Type} (e b : α) :
    ∀ k, (List.replicate (k + 1) e).set k b = List.replicate k e ++ [b] := by
  intro k
  induction k with
  | zero => rfl
  | succ m ih =>
    rw [List.replicate_succ]
    show e :: (List.replicate (m + 1) e).set m b
      = e :: (List.replicate m e ++ [b])
    rw [ih]

theorem replicate_set_corners {α : Type} (e a b : α) (n : Nat) (hn : 2 ≤ n) :
    ((List.replicate n e).set 0 a).set (n - 1) b
      = a :: (List.replicate (n - 2) e ++ [b]) := by
  obtain ⟨k, rfl⟩ : ∃ k, n = k + 2 := ⟨n - 2, by omega⟩
  rw [List.replicate_succ]
  show a :: (List.replicate (k + 1) e).set k b = a :: (List.replicate k e ++ [b])
  rw [replicate_set_last]

theorem legacy_hline_eq (buf : Str) (st : BorderStyle) (len : Nat) (hlen : 2 ≤ len)
    (L R : BorderChar) :
    legacy_make_top_or_bottom_line buf st len L R
      = make_top_or_bottom_line buf ⟨len, st, Title.empty, L, R⟩ := by
  simp only [legacy_make_top_or_bottom_line, make_top_or_bottom_line]
  have hemp : Title.empty.is_empty = true := rfl
  rw [List.length_set, List.length_replicate,
    replicate_set_corners (st.shape.getChar .Edge) (st.shape.getChar L)
      (st.shape.getChar R) len hlen,
    if_neg (not_not_intro hemp)]
  simp only [SIDES]
  split
  · next hpl =>
    rw [(isPlain_iff _).mp hpl, paint_plain]
    simp
  · simp

theorem legacy_current_equiv (bs : BorderStyle) (p : Padding) (ls : List Str) :
    LegacyTermBox.to_string ⟨bs, p, ls⟩
      = TermBox.into_string ⟨bs, p, Titles.none, ls⟩ := by
  have h2 : 2 ≤ (TermBox.mk bs p Titles.none ls).computed_line_len := by
    have := computed_line_len_ge_min (TermBox.mk bs p Titles.none ls)
    simp only [MIN_LINE_LEN] at this
    omega
  have hllen : Nat.max MIN_LINE_LEN
        (line_len (legacy_longest (ls.map CountedString.new)) p.count)
      = (TermBox.mk bs p Titles.none ls).computed_line_len := by
    unfold TermBox.computed_line_len
    congr 1
    unfold line_len
    rw [legacy_longest_width, longest_line_no_titles]
  simp only [LegacyTermBox.to_string, TermBox.into_string]
  rw [hllen, get_string_eq_into_counted]
  unfold legacy_make_top_line make_top_line legacy_make_bottom_line make_bottom_line
  rw [legacy_hline_eq _ _ _ h2, legacy_hline_eq _ _ _ h2]
  rfl

/-! ### Safety of the `usize` subtractions (Int mirrors) -/

theorem center_pad_lenZ_spec (w t m : Nat) (_h1 : 1 ≤ w) (h2 : w + 2 < t)
    (hm : m ≤ 1) :
    0 ≤ center_pad_lenZ w t m
      ∧ center_pad_lenZ w t m = (center_pad_len w t m : Int) := by
  rw [center_pad_len_eq]
  simp only [center_pad_lenZ]
  constructor <;> split_ifs <;> omega

theorem opposite_pad_lenZ_spec (w t : Nat) (h2 : w + 2 < t) :
    0 ≤ opposite_side_pad_lenZ w t
      ∧ opposite_side_pad_lenZ w t = (opposite_side_pad_len w t : Int) := by
  unfold opposite_side_pad_lenZ opposite_side_pad_len DEFAULT_DIST_FROM_CORNER SIDES
  constructor <;> omega

theorem pad_lenZ_spec (tl : Title) (t : Nat) (hfit : tl.width + 2 ≤ t) :
    (0 ≤ left_pad_lenZ tl.pos tl.width t
      ∧ left_pad_lenZ tl.pos tl.width t = (tl.left_pad_len t : Int))
    ∧ (0 ≤ right_pad_lenZ tl.pos tl.width t
      ∧ right_pad_lenZ tl.pos tl.width t = (tl.right_pad_len t : Int)) := by
  unfold Title.left_pad_len Title.right_pad_len left_pad_lenZ right_pad_lenZ
  by_cases hw : tl.width = 0
  · have hzN : special_pad_len tl.width t = some (t / 2) := by
      rw [hw]
      exact special_pad_len_zero t
    have hzZ : special_pad_lenZ (tl.width : Int) t = some ((t : Int) / 2) := by
      unfold special_pad_lenZ
      rw [if_pos (by omega)]
    rw [hzN, hzZ]
    exact ⟨⟨show (0 : Int) ≤ (t : Int) / 2 by omega,
            show ((t : Int) / 2) = (((t / 2 : Nat)) : Int) by omega⟩,
          show (0 : Int) ≤ (t : Int) / 2 by omega,
          show ((t : Int) / 2) = (((t / 2 : Nat)) : Int) by omega⟩
  · have hw1 : 1 ≤ tl.width := Nat.one_le_iff_ne_zero.mpr hw
    rcases Nat.eq_or_lt_of_le hfit with he | hlt
    · rw [special_pad_len_full _ _ hw1 he]
      have hzZ : special_pad_lenZ (tl.width : Int) t = some 0 := by
        unfold special_pad_lenZ
        rw [if_neg (by omega), if_pos (by omega)]
      rw [hzZ]
      exact ⟨⟨show (0 : Int) ≤ 0 by omega,
              show (0 : Int) = (((0 : Nat)) : Int) by omega⟩,
            show (0 : Int) ≤ 0 by omega,
            show (0 : Int) = (((0 : Nat)) : Int) by omega⟩
    · rw [special_pad_len_mid _ _ hw1 hlt]
      have hzZ : special_pad_lenZ (tl.width : Int) t = Option.none := by
        unfold special_pad_lenZ
        rw [if_neg (by omega), if_neg (by omega)]
      rw [hzZ]
      cases tl.pos
      · obtain ⟨hl0, hlEq⟩ :=
          center_pad_lenZ_spec tl.width t 0 hw1 hlt (by omega)
        obtain ⟨hr0, hrEq⟩ :=
          center_pad_lenZ_spec tl.width t 1 hw1 hlt (by omega)
        exact ⟨⟨hl0, hlEq⟩, hr0, hrEq⟩
      · obtain ⟨ho0, hoEq⟩ := opposite_pad_lenZ_spec tl.width t hlt
        exact ⟨⟨show (0 : Int) ≤ 1 by omega,
                show (1 : Int) = ((DEFAULT_DIST_FROM_CORNER : Nat) : Int) by
                  simp [DEFAULT_DIST_FROM_CORNER]⟩,
              ho0, hoEq⟩
      · obtain ⟨ho0, hoEq⟩ := opposite_pad_lenZ_spec tl.width t hlt
        exact ⟨⟨ho0, hoEq⟩,
              show (0 : Int) ≤ 1 by omega,
              show (1 : Int) = ((DEFAULT_DIST_FROM_CORNER : Nat) : Int) by
                simp [DEFAULT_DIST_FROM_CORNER]⟩

/-! ## The claims -/

/-- C1: the spec's central invariant — every line of the rendered output has
the same visual width — fails on the code for a box whose top title is a
single ANSI escape sequence (raw length 1, visible width 0): with
`total_len = 3` the code pads `3 / 2 = 1` edge glyph on each side of the
invisible title, so the top border line has visible width 4 while the bottom
has width 3. -/
theorem c1_escape_title_breaks_width_invariant :
    (splitLines escTitleBox.into_string).map visWidth = [4, 3] := by decide

/-- C2, counterexample: the claimed formula
`max(MIN_LINE_LEN, longest_width + 2*SIDES + 2*padding.count)` with
`SIDES = 2` is wrong: already for the default box the rendered lines have
width 3 while the formula yields 4. -/
theorem c2_formula_counterexample :
    ¬ (∀ line ∈ splitLines TermBox.default.into_string,
        visWidth line = Nat.max MIN_LINE_LEN
          (longest_width TermBox.default
            + 2 * SIDES + 2 * TermBox.default.padding.count)) := by decide

/-- C2, amended: for a well-formed box (honest, newline-free titles of
positive visible width when non-empty; single-column padding) every emitted
line has visible width
`max(MIN_LINE_LEN, longest_width + SIDES + SIDES*padding.count)` with
`SIDES = 2`. -/
theorem c2_line_width_amended (b : TermBox) (h : WF b) :
    (splitLines b.into_string).map visWidth
      = List.replicate (b.lines.length + 2)
          (Nat.max MIN_LINE_LEN
            (longest_width b + SIDES + SIDES * b.padding.count)) := by
  rw [← computed_line_len_eq b h]
  exact into_string_widths b h

/-- C2, witness: the amended statement instantiated at a concrete box. -/
theorem c2_line_width_witness :
    (splitLines witnessBox.into_string).map visWidth
      = List.replicate (witnessBox.lines.length + 2)
          (Nat.max MIN_LINE_LEN
            (longest_width witnessBox
              + SIDES + SIDES * witnessBox.padding.count)) :=
  c2_line_width_amended witnessBox (by decide)

/-- C3: for every title position and visible width `0 < w ≤ total_len - 2`,
the pads satisfy `left_pad_len + w + right_pad_len + 2 = total_len`, and when
`w = total_len - 2` both pads are 0. -/
theorem c3_title_pad_partition (pos : TitlePosition) (s : Str) (w t : Nat)
    (h1 : 0 < w) (h2 : w + 2 ≤ t) :
    (Title.mk ⟨s, w⟩ pos).left_pad_len t + w
        + (Title.mk ⟨s, w⟩ pos).right_pad_len t + 2 = t
    ∧ (w + 2 = t →
        (Title.mk ⟨s, w⟩ pos).left_pad_len t = 0
          ∧ (Title.mk ⟨s, w⟩ pos).right_pad_len t = 0) := by
  constructor
  · exact pad_sum (Title.mk ⟨s, w⟩ pos) t h1 h2
  · intro he
    exact pad_len_full (Title.mk ⟨s, w⟩ pos) t h1 he

/-- C3, witness: the pad partition at a concrete centered title. -/
theorem c3_title_pad_partition_witness :
    (Title.mk ⟨[], 3⟩ .Centered).left_pad_len 9 + 3
        + (Title.mk ⟨[], 3⟩ .Centered).right_pad_len 9 + 2 = 9
    ∧ (3 + 2 = 9 →
        (Title.mk ⟨[], 3⟩ .Centered).left_pad_len 9 = 0
          ∧ (Title.mk ⟨[], 3⟩ .Centered).right_pad_len 9 = 0) :=
  c3_title_pad_partition .Centered [] 3 9 (by decide) (by decide)

/-- C4: for a centered title with `0 < w < total_len - 2`: equal parity of
`w` and `total_len` gives equal pads; with differing parity the pads differ
by exactly 1, the extra glyph going to the right pad when `total_len` is odd
and to the left pad when `total_len` is even. -/
theorem c4_center_parity (s : Str) (w t : Nat) (h1 : 0 < w) (h2 : w + 2 < t) :
    (w % 2 = t % 2 →
      (Title.mk ⟨s, w⟩ .Centered).left_pad_len t
        = (Title.mk ⟨s, w⟩ .Centered).right_pad_len t)
    ∧ (w % 2 ≠ t % 2 → t % 2 = 1 →
      (Title.mk ⟨s, w⟩ .Centered).right_pad_len t
        = (Title.mk ⟨s, w⟩ .Centered).left_pad_len t + 1)
    ∧ (w % 2 ≠ t % 2 → t % 2 = 0 →
      (Title.mk ⟨s, w⟩ .Centered).left_pad_len t
        = (Title.mk ⟨s, w⟩ .Centered).right_pad_len t + 1) := by
  have hL : (Title.mk ⟨s, w⟩ .Centered).left_pad_len t = center_pad_len w t 0 :=
    left_pad_len_mid (Title.mk ⟨s, w⟩ .Centered) t h1 h2
  have hR : (Title.mk ⟨s, w⟩ .Centered).right_pad_len t = center_pad_len w t 1 :=
    right_pad_len_mid (Title.mk ⟨s, w⟩ .Centered) t h1 h2
  rw [hL, hR, center_pad_len_eq, center_pad_len_eq]
  refine ⟨fun hp => ?_, fun hp ho => ?_, fun hp he => ?_⟩ <;>
    split_ifs <;> omega

/-- C4, witness: an even-width title on an odd total length compensates on
the right pad. -/
theorem c4_center_parity_witness :
    (2 % 2 = 9 % 2 →
      (Title.mk ⟨[], 2⟩ .Centered).left_pad_len 9
        = (Title.mk ⟨[], 2⟩ .Centered).right_pad_len 9)
    ∧ (2 % 2 ≠ 9 % 2 → 9 % 2 = 1 →
      (Title.mk ⟨[], 2⟩ .Centered).right_pad_len 9
        = (Title.mk ⟨[], 2⟩ .Centered).left_pad_len 9 + 1)
    ∧ (2 % 2 ≠ 9 % 2 → 9 % 2 = 0 →
      (Title.mk ⟨[], 2⟩ .Centered).left_pad_len 9
        = (Title.mk ⟨[], 2⟩ .Centered).right_pad_len 9 + 1) :=
  c4_center_parity [] 2 9 (by decide) (by decide)

/-- C5: when a title is present, the border line is assembled by styling the
pad-and-corner segment after the title and then styling the whole line, each
application skipped exactly when the border style is plain. -/
theorem c5_border_style_applied_twice (args : HorizLineArgs) (buf : Str)
    (hne : args.title.is_empty = false) :
    make_top_or_bottom_line buf args
      = buf ++ applyStyle args.style.ansi
          ([args.style.shape.getChar args.left]
            ++ List.replicate (args.title.left_pad_len args.len)
                (args.style.shape.getChar .Edge)
            ++ args.title.text.str
            ++ applyStyle args.style.ansi
                (List.replicate (args.title.right_pad_len args.len)
                    (args.style.shape.getChar .Edge)
                  ++ [args.style.shape.getChar args.right])) := by
  simp only [make_top_or_bottom_line, ins_title, applyStyle, hne]
  split <;> simp [List.append_assoc]

/-- C5, witness: the double application at a concrete styled border line. -/
theorem c5_border_style_applied_twice_witness :
    make_top_or_bottom_line [] c5Args
      = [] ++ applyStyle c5Args.style.ansi
          ([c5Args.style.shape.getChar c5Args.left]
            ++ List.replicate (c5Args.title.left_pad_len c5Args.len)
                (c5Args.style.shape.getChar .Edge)
            ++ c5Args.title.text.str
            ++ applyStyle c5Args.style.ansi
                (List.replicate (c5Args.title.right_pad_len c5Args.len)
                    (c5Args.style.shape.getChar .Edge)
                  ++ [c5Args.style.shape.getChar c5Args.right])) :=
  c5_border_style_applied_twice c5Args [] (by decide)

/-- C6: rendering is total — for every box, the `make_line` fill subtraction
never goes below zero for any content line, and the title pad computations,
mirrored over `Int`, are non-negative and agree with the `Nat` versions at
the computed line length. -/
theorem c6_render_total (b : TermBox) :
    (∀ l ∈ b.counted_lines,
      line_len l b.padding.count ≤ b.computed_line_len)
    ∧ (∀ tl ∈ [b.titles.top, b.titles.bottom],
        (0 ≤ left_pad_lenZ tl.pos tl.width b.computed_line_len
          ∧ left_pad_lenZ tl.pos tl.width b.computed_line_len
              = (tl.left_pad_len b.computed_line_len : Int))
        ∧ (0 ≤ right_pad_lenZ tl.pos tl.width b.computed_line_len
          ∧ right_pad_lenZ tl.pos tl.width b.computed_line_len
              = (tl.right_pad_len b.computed_line_len : Int))) := by
  refine ⟨computed_line_len_ge_lines b, ?_⟩
  intro tl htl
  have hfit := computed_line_len_ge_titles b
  simp only [SIDES] at hfit
  rcases List.mem_cons.mp htl with rfl | htl
  · exact pad_lenZ_spec _ _ hfit.1
  · rcases List.mem_cons.mp htl with rfl | htl
    · exact pad_lenZ_spec _ _ hfit.2
    · exact absurd htl (List.not_mem_nil _)

/-- C6, witness: totality facts at a concrete box. -/
theorem c6_render_total_witness :
    line_len (CountedString.new [Tok.ch 'a' 1]) witnessBox.padding.count
        ≤ witnessBox.computed_line_len
    ∧ 0 ≤ left_pad_lenZ witnessBox.titles.top.pos witnessBox.titles.top.width
        witnessBox.computed_line_len :=
  ⟨(c6_render_total witnessBox).1 _ (by decide),
    ((c6_render_total witnessBox).2 _ (by decide)).1.1⟩

/-- C7: constructing `Padding` with a tab yields the same value as
constructing it with `8 * count` spaces (whatever display width the tab
itself is assigned), hence identical rendering. -/
theorem c7_tab_padding_equiv (n cw : Nat) (bs : BorderStyle) (ts : Titles)
    (ls : List Str) :
    Padding.new '\t' cw n = Padding.new ' ' 1 (8 * n)
    ∧ TermBox.into_string ⟨bs, Padding.new '\t' cw n, ts, ls⟩
        = TermBox.into_string ⟨bs, Padding.new ' ' 1 (8 * n), ts, ls⟩ := by
  have h : Padding.new '\t' cw n = Padding.new ' ' 1 (8 * n) := by
    show Padding.spaces (n * 8) = (⟨' ', 1, 8 * n⟩ : Padding)
    unfold Padding.spaces
    rw [Nat.mul_comm]
  exact ⟨h, by rw [h]⟩

/-- C8: the default box renders to exactly `┌─┐\n└─┘`, its `Double` variant
to `╔═╗\n╚═╝` (no trailing newline), and the line-terminated output surface
appends exactly one newline. -/
theorem c8_empty_box_render :
    TermBox.default.into_string
      = [Tok.ch '┌' 1, Tok.ch '─' 1, Tok.ch '┐' 1, nlTok,
          Tok.ch '└' 1, Tok.ch '─' 1, Tok.ch '┘' 1]
    ∧ doubleBox.into_string
      = [Tok.ch '╔' 1, Tok.ch '═' 1, Tok.ch '╗' 1, nlTok,
          Tok.ch '╚' 1, Tok.ch '═' 1, Tok.ch '╝' 1]
    ∧ TermBox.default.print_string
      = [Tok.ch '┌' 1, Tok.ch '─' 1, Tok.ch '┐' 1, nlTok,
          Tok.ch '└' 1, Tok.ch '─' 1, Tok.ch '┘' 1, nlTok]
    ∧ doubleBox.print_string
      = [Tok.ch '╔' 1, Tok.ch '═' 1, Tok.ch '╗' 1, nlTok,
          Tok.ch '╚' 1, Tok.ch '═' 1, Tok.ch '╝' 1, nlTok] := by
  refine ⟨?_, ?_, ?_, ?_⟩ <;> decide

/-- C9: `Title::is_empty` tests the raw length of the text, not its visible
width; a title of zero visible width (e.g. only ANSI control sequences) is
positioned with both pads degenerating to `total_len / 2`. -/
theorem c9_title_emptiness_raw_length (tl : Title) (t : Nat) :
    (tl.is_empty = true ↔ tl.text.str.length = 0)
    ∧ (tl.width = 0 →
        tl.left_pad_len t = t / 2 ∧ tl.right_pad_len t = t / 2) := by
  constructor
  · cases h : tl.text.str <;> simp [Title.is_empty, h]
  · intro h
    exact pad_len_zero_width tl t h

/-- C9, witness: an ANSI-only title (non-empty, zero width) splits the
border at `total_len / 2` on both sides. -/
theorem c9_title_emptiness_witness :
    (mkTitle [Tok.esc 0] .Left).left_pad_len 7 = 7 / 2
    ∧ (mkTitle [Tok.esc 0] .Left).right_pad_len 7 = 7 / 2 :=
  (c9_title_emptiness_raw_length (mkTitle [Tok.esc 0] .Left) 7).2 (by decide)

/-- C10: the legacy renderer of the crate root and the current renderer
(with both titles empty) produce identical output for every border style,
space padding and content. -/
theorem c10_legacy_renderer_equiv (bs : BorderStyle) (n : Nat) (ls : List Str) :
    LegacyTermBox.to_string ⟨bs, Padding.spaces n, ls⟩
      = TermBox.into_string ⟨bs, Padding.spaces n, Titles.none, ls⟩ :=
  legacy_current_equiv bs (Padding.spaces n) ls
